import Mathlib

/-!
Shallow embedding of the Tasty Bites restaurant API (src/server.js): an
in-memory collection of menu-item records with field validation and
CRUD handlers, modelled as pure functions over an explicit store state.

JavaScript values delivered by the JSON body parser are modelled by
`JValue`: JSON cannot express `undefined`, `NaN` or `Infinity`, so an
absent object key is `Option.none` and numbers are exact rationals.
JavaScript objects are association lists of string keys; `parseInt` is
modelled as `Option Int` with `none` standing for `NaN`.
-/

/-- Model of a JavaScript value as delivered by the JSON request codec. -/
inductive JValue where
  | str : String → JValue
  | num : Rat → JValue
  | bool : Bool → JValue
  | null : JValue
  | arr : List JValue → JValue
  | obj : List (String × JValue) → JValue

/-- Model of a JavaScript object: an association list of key-value pairs. -/
abbrev JObj := List (String × JValue)

/-- Property access `o.k`: the value of the first entry with key `k`, or
`none` when the key is absent (JavaScript `undefined`). -/
def getProp (o : JObj) (k : String) : Option JValue :=
  match o with
  | [] => none
  | kv :: rest => if kv.1 == k then some kv.2 else getProp rest k

/-- JavaScript truthiness of a possibly absent value: `undefined`, `null`,
`false`, `0` and the empty string are falsy; arrays and objects are truthy. -/
def truthy : Option JValue → Bool
  | none => false
  | some JValue.null => false
  | some (JValue.bool b) => b
  | some (JValue.num q) => q != 0
  | some (JValue.str s) => s != ""
  | some (JValue.arr _) => true
  | some (JValue.obj _) => true

/-- Assignment of key `k` to value `v` at the end of an object literal:
when `k` is already present its entry keeps its position and takes the new
value, otherwise the entry is appended. -/
def setKey (o : JObj) (k : String) (v : JValue) : JObj :=
  if (getProp o k).isSome
  then o.map (fun kv => if kv.1 == k then (k, v) else kv)
  else o ++ [(k, v)]

/-- Object spread `\x7b...a, ...b\x7d`: the keys of `a` in order, each taking
the value from `b` when `b` also has the key, followed by the entries of `b`
whose keys are absent from `a`. -/
def objMerge (a b : JObj) : JObj :=
  a.map (fun kv =>
    match getProp b kv.1 with
    | some v => (kv.1, v)
    | none => kv)
  ++ b.filter (fun kv => (getProp a kv.1).isNone)

/-- JavaScript `Array.prototype.findIndex`, with the not-found result `-1`
modelled as `none`. -/
def findIndexJS (p : α → Bool) : List α → Option Nat
  | [] => none
  | x :: xs => if p x then some 0 else (findIndexJS p xs).map (· + 1)

/-- JavaScript `Array.prototype.find`. -/
def findJS (p : α → Bool) : List α → Option α
  | [] => none
  | x :: xs => if p x then some x else findJS p xs

/-- Array indexing `l[i]`, `none` when out of range. -/
def getAtJS : List α → Nat → Option α
  | [], _ => none
  | x :: _, 0 => some x
  | _ :: xs, n + 1 => getAtJS xs n

/-- Array element assignment `l[i] = v`. -/
def setAtJS : List α → Nat → α → List α
  | [], _, _ => []
  | _ :: xs, 0, v => v :: xs
  | x :: xs, n + 1, v => x :: setAtJS xs n v

/-- JavaScript `l.splice(i, 1)`: removal of the element at index `i`. -/
def removeAtJS : List α → Nat → List α
  | [], _ => []
  | _ :: xs, 0 => xs
  | x :: xs, n + 1 => x :: removeAtJS xs n

/-- Whitespace class of JavaScript trimming, restricted to the ASCII
whitespace characters. -/
def isWhitespaceJS (c : Char) : Bool :=
  c == ' ' || c == '\t' || c == '\n' || c == '\r' || c == '\x0c' || c == '\x0b'

/-- Model of JavaScript `String.prototype.trim`: leading and trailing
whitespace removed. -/
def trimJS (s : String) : String :=
  String.mk (((s.toList.dropWhile isWhitespaceJS).reverse.dropWhile isWhitespaceJS).reverse)

/-- Numeric value of a run of decimal digit characters. -/
def digitsVal (cs : List Char) : Nat :=
  cs.foldl (fun a c => a * 10 + (c.toNat - 48)) 0

/-- Whitespace skipped by JavaScript `parseInt`: the ECMA WhiteSpace
characters (tab, vertical tab, form feed, space, no-break space, the
Unicode space separators, the byte order mark) and the LineTerminator
characters (line feed, carriage return, line separator, paragraph
separator). -/
def isStrWhiteSpaceJS (c : Char) : Bool :=
  c == ' ' || c == '\t' || c == '\n' || c == '\r' || c == '\x0b' || c == '\x0c' ||
  c == '\u00A0' || c == '\u1680' ||
  ('\u2000' ≤ c && c ≤ '\u200A') ||
  c == '\u2028' || c == '\u2029' || c == '\u202F' || c == '\u205F' ||
  c == '\u3000' || c == '\uFEFF'

/-- Hexadecimal digit accepted by JavaScript `parseInt` in radix 16. -/
def isHexDigitJS (c : Char) : Bool :=
  c.isDigit || ('a' ≤ c && c ≤ 'f') || ('A' ≤ c && c ≤ 'F')

/-- Numeric value of a run of hexadecimal digit characters. -/
def hexVal (cs : List Char) : Nat :=
  cs.foldl (fun a c => a * 16 +
    (if c.isDigit then c.toNat - 48
     else if 'a' ≤ c && c ≤ 'f' then c.toNat - 87
     else c.toNat - 55)) 0

/-- Model of JavaScript `parseInt(s)` with no radix argument: all ECMA
whitespace is skipped, an optional sign is read, a leading `0x` or `0X`
selects radix 16, any other start selects radix 10; the longest leading
run of digits of the selected radix is parsed, and an empty run gives
`NaN` (here `none`). -/
def parseIntJS (s : String) : Option Int :=
  let cs := s.toList.dropWhile isStrWhiteSpaceJS
  let signed :=
    match cs with
    | '-' :: rest => (true, rest)
    | '+' :: rest => (false, rest)
    | _ => (false, cs)
  let mag : Option Nat :=
    match signed.2 with
    | '0' :: x :: rest =>
        if x == 'x' || x == 'X' then
          let ds := rest.takeWhile isHexDigitJS
          if ds.isEmpty then none else some (hexVal ds)
        else
          let ds := ('0' :: x :: rest).takeWhile Char.isDigit
          if ds.isEmpty then none else some (digitsVal ds)
    | _ =>
        let ds := signed.2.takeWhile Char.isDigit
        if ds.isEmpty then none else some (digitsVal ds)
  match mag with
  | none => none
  | some m => some (if signed.1 then -(m : Int) else (m : Int))

/-- One entry of a validation failure report. -/
structure FieldError where
  field : String
  message : String
deriving DecidableEq

/-- Valid category names, from `validateMenuItem`. -/
def validCategories : List String := ["appetizer", "entree", "dessert", "beverage"]

/-- Name block of `validateMenuItem`: checked on create, and on update only
when the key is present; required (truthy), a string, length at least 3. -/
def nameErrors (data : JObj) (isUpdate : Bool) : List FieldError :=
  if !isUpdate || (getProp data "name").isSome then
    if truthy (getProp data "name") = false then
      [⟨"name", "Name is required"⟩]
    else
      match getProp data "name" with
      | some (JValue.str s) =>
          if s.length < 3 then [⟨"name", "Name must be at least 3 characters long"⟩] else []
      | _ => [⟨"name", "Name must be a string"⟩]
  else []

/-- Description block of `validateMenuItem`. -/
def descriptionErrors (data : JObj) (isUpdate : Bool) : List FieldError :=
  if !isUpdate || (getProp data "description").isSome then
    if truthy (getProp data "description") = false then
      [⟨"description", "Description is required"⟩]
    else
      match getProp data "description" with
      | some (JValue.str s) =>
          if s.length < 10 then
            [⟨"description", "Description must be at least 10 characters long"⟩]
          else []
      | _ => [⟨"description", "Description must be a string"⟩]
  else []

/-- Price block of `validateMenuItem`: absent and `null` count as missing,
the value must be a number strictly greater than 0. -/
def priceErrors (data : JObj) (isUpdate : Bool) : List FieldError :=
  if !isUpdate || (getProp data "price").isSome then
    match getProp data "price" with
    | none => [⟨"price", "Price is required"⟩]
    | some JValue.null => [⟨"price", "Price is required"⟩]
    | some (JValue.num q) =>
        if q ≤ 0 then [⟨"price", "Price must be greater than 0"⟩] else []
    | some _ => [⟨"price", "Price must be a number"⟩]
  else []

/-- Category block of `validateMenuItem`. -/
def categoryErrors (data : JObj) (isUpdate : Bool) : List FieldError :=
  if !isUpdate || (getProp data "category").isSome then
    if truthy (getProp data "category") = false then
      [⟨"category", "Category is required"⟩]
    else
      match getProp data "category" with
      | some (JValue.str s) =>
          if validCategories.contains s then []
          else [⟨"category", "Category must be one of: appetizer, entree, dessert, beverage"⟩]
      | _ => [⟨"category", "Category must be a string"⟩]
  else []

/-- Ingredients block of `validateMenuItem`: a non-empty array whose
entries are strings that are non-empty after trimming. -/
def ingredientsErrors (data : JObj) (isUpdate : Bool) : List FieldError :=
  if !isUpdate || (getProp data "ingredients").isSome then
    if truthy (getProp data "ingredients") = false then
      [⟨"ingredients", "Ingredients are required"⟩]
    else
      match getProp data "ingredients" with
      | some (JValue.arr xs) =>
          if xs.length < 1 then
            [⟨"ingredients", "Ingredients must have at least 1 item"⟩]
          else if xs.any (fun ing =>
              match ing with
              | JValue.str s => (trimJS s).length == 0
              | _ => true) then
            [⟨"ingredients", "Each ingredient must be a non-empty string"⟩]
          else []
      | _ => [⟨"ingredients", "Ingredients must be an array"⟩]
  else []

/-- Available block of `validateMenuItem`: optional, but a boolean when
present. -/
def availableErrors (data : JObj) : List FieldError :=
  match getProp data "available" with
  | none => []
  | some (JValue.bool _) => []
  | some _ => [⟨"available", "Available must be a boolean"⟩]

/-- The validator `validateMenuItem(data, isUpdate)`: the per-field error
lists in source order, accumulated into one report. -/
def validateMenuItem (data : JObj) (isUpdate : Bool) : List FieldError :=
  nameErrors data isUpdate ++ descriptionErrors data isUpdate ++
  priceErrors data isUpdate ++ categoryErrors data isUpdate ++
  ingredientsErrors data isUpdate ++ availableErrors data

/-- The store state: the `menuItems` array and the `nextId` counter. -/
structure StoreState where
  menuItems : List JObj
  nextId : Int
deriving Inhabited

/-- The three seed items the store starts with. -/
def seedItems : List JObj :=
  [[("id", JValue.num 1),
    ("name", JValue.str "Classic Burger"),
    ("description", JValue.str "Beef patty with lettuce, tomato, and cheese on a sesame seed bun"),
    ("price", JValue.num (mkRat 1299 100)),
    ("category", JValue.str "entree"),
    ("ingredients", JValue.arr [JValue.str "beef", JValue.str "lettuce", JValue.str "tomato",
      JValue.str "cheese", JValue.str "bun"]),
    ("available", JValue.bool true)],
   [("id", JValue.num 2),
    ("name", JValue.str "Caesar Salad"),
    ("description", JValue.str "Fresh romaine lettuce with Caesar dressing, croutons, and parmesan cheese"),
    ("price", JValue.num (mkRat 999 100)),
    ("category", JValue.str "appetizer"),
    ("ingredients", JValue.arr [JValue.str "romaine lettuce", JValue.str "caesar dressing",
      JValue.str "croutons", JValue.str "parmesan cheese"]),
    ("available", JValue.bool true)],
   [("id", JValue.num 3),
    ("name", JValue.str "Chocolate Lava Cake"),
    ("description", JValue.str "Warm chocolate cake with a molten chocolate center, served with vanilla ice cream"),
    ("price", JValue.num (mkRat 799 100)),
    ("category", JValue.str "dessert"),
    ("ingredients", JValue.arr [JValue.str "chocolate", JValue.str "flour", JValue.str "eggs",
      JValue.str "sugar", JValue.str "butter", JValue.str "vanilla ice cream"]),
    ("available", JValue.bool true)]]

/-- The process start state: the seed items and `nextId = 4`. -/
def initialState : StoreState := { menuItems := seedItems, nextId := 4 }

/-- The comparison `item.id === id` of a stored item against a parsed path
id: strict equality holds only when both sides are numbers with the same
value, and `NaN` (`none`) is equal to nothing. -/
def idMatches (item : JObj) (pid : Option Int) : Bool :=
  match pid, getProp item "id" with
  | some n, some (JValue.num q) => q == (n : Rat)
  | _, _ => false

/-- The JavaScript value the PUT handler writes for `id`. The `none` case
is unreachable: a `NaN` id matches no stored item, so no branch that stores
an id is reached with it. -/
def parsedIdValue : Option Int → JValue
  | some n => JValue.num (n : Rat)
  | none => JValue.null

/-- Outcome of `POST /api/menu`. -/
inductive PostResult where
  | created : JObj → PostResult
  | badRequest : List FieldError → PostResult

/-- Outcome of `PUT /api/menu/:id`. -/
inductive PutResult where
  | ok : JObj → PutResult
  | notFound : PutResult
  | badRequest : List FieldError → PutResult

/-- Outcome of `DELETE /api/menu/:id`. -/
inductive DeleteResult where
  | ok : JObj → DeleteResult
  | notFound : DeleteResult

/-- Outcome of `GET /api/menu/:id`. -/
inductive GetResult where
  | ok : JObj → GetResult
  | notFound : GetResult

/-- HTTP status code of a POST outcome. -/
def PostResult.statusCode : PostResult → Nat
  | PostResult.created _ => 201
  | PostResult.badRequest _ => 400

/-- HTTP status code of a PUT outcome. -/
def PutResult.statusCode : PutResult → Nat
  | PutResult.ok _ => 200
  | PutResult.notFound => 404
  | PutResult.badRequest _ => 400

/-- HTTP status code of a DELETE outcome. -/
def DeleteResult.statusCode : DeleteResult → Nat
  | DeleteResult.ok _ => 200
  | DeleteResult.notFound => 404

/-- HTTP status code of a GET outcome. -/
def GetResult.statusCode : GetResult → Nat
  | GetResult.ok _ => 200
  | GetResult.notFound => 404

/-- The record built by the POST handler. The five required fields are
present whenever validation has passed, so the `.getD JValue.null`
defaults are never reached on the success path; `available` takes the
payload value when defined and `true` otherwise, exactly as in the
conditional of the source. -/
def mkNewItem (newId : Int) (body : JObj) : JObj :=
  [("id", JValue.num (newId : Rat)),
   ("name", (getProp body "name").getD JValue.null),
   ("description", (getProp body "description").getD JValue.null),
   ("price", (getProp body "price").getD JValue.null),
   ("category", (getProp body "category").getD JValue.null),
   ("ingredients", (getProp body "ingredients").getD JValue.null),
   ("available", (getProp body "available").getD (JValue.bool true))]

/-- Handler of `POST /api/menu`: full validation, then the new record is
assigned id `nextId`, appended, and `nextId` is incremented. -/
def postMenu (st : StoreState) (body : JObj) : PostResult × StoreState :=
  match validateMenuItem body false with
  | e :: es => (PostResult.badRequest (e :: es), st)
  | [] =>
      let newMenuItem := mkNewItem st.nextId body
      (PostResult.created newMenuItem,
       { menuItems := st.menuItems ++ [newMenuItem], nextId := st.nextId + 1 })

/-- Handler of `PUT /api/menu/:id`: lookup by id first (404 when absent),
then validation of the supplied fields only, then the spread merge
`\x7b...existing, ...body, id: id\x7d` stored back at the same index. The
inner `none` case is unreachable because `findIndexJS` returns an index
in range. -/
def putMenu (st : StoreState) (pid : Option Int) (body : JObj) : PutResult × StoreState :=
  match findIndexJS (fun item => idMatches item pid) st.menuItems with
  | none => (PutResult.notFound, st)
  | some index =>
      match validateMenuItem body true with
      | e :: es => (PutResult.badRequest (e :: es), st)
      | [] =>
          match getAtJS st.menuItems index with
          | none => (PutResult.notFound, st)
          | some old =>
              let updatedMenuItem := setKey (objMerge old body) "id" (parsedIdValue pid)
              (PutResult.ok updatedMenuItem,
               { st with menuItems := setAtJS st.menuItems index updatedMenuItem })

/-- Handler of `DELETE /api/menu/:id`: lookup by id, then removal by
`splice`. The inner `none` case is unreachable because `findIndexJS`
returns an index in range. -/
def deleteMenu (st : StoreState) (pid : Option Int) : DeleteResult × StoreState :=
  match findIndexJS (fun item => idMatches item pid) st.menuItems with
  | none => (DeleteResult.notFound, st)
  | some index =>
      match getAtJS st.menuItems index with
      | none => (DeleteResult.notFound, st)
      | some deleted =>
          (DeleteResult.ok deleted, { st with menuItems := removeAtJS st.menuItems index })

/-- Handler of `GET /api/menu/:id`. -/
def getMenuItem (st : StoreState) (pid : Option Int) : GetResult :=
  match findJS (fun item => idMatches item pid) st.menuItems with
  | some item => GetResult.ok item
  | none => GetResult.notFound

/-- A state-changing request against the store. -/
inductive Op where
  | post : JObj → Op
  | put : Option Int → JObj → Op
  | del : Option Int → Op

/-- State after one request. -/
def applyOp (st : StoreState) : Op → StoreState
  | Op.post body => (postMenu st body).2
  | Op.put pid body => (putMenu st pid body).2
  | Op.del pid => (deleteMenu st pid).2

/-- State after a sequence of requests. -/
def run (st : StoreState) : List Op → StoreState
  | [] => st
  | op :: ops => run (applyOp st op) ops

/-- Ids handed out by `create` along a trace, in order of assignment. -/
def assignedIds (st : StoreState) : List Op → List Int
  | [] => []
  | Op.post body :: ops =>
      (match (postMenu st body).1 with
       | PostResult.created _ => [st.nextId]
       | PostResult.badRequest _ => []) ++ assignedIds (applyOp st (Op.post body)) ops
  | op :: ops => assignedIds (applyOp st op) ops

/-- Every id the store has assigned over its lifetime after a trace: the
seed ids and the created ones. -/
def allAssigned (ops : List Op) : List Int :=
  [1, 2, 3] ++ assignedIds initialState ops

/-! Lemmas about object property access, spread merge and key assignment. -/

theorem getProp_append (a b : JObj) (k : String) :
    getProp (a ++ b) k = match getProp a k with
      | some v => some v
      | none => getProp b k := by
  induction a with
  | nil => simp [getProp]
  | cons kv rest ih =>
      by_cases h : kv.1 = k
      · simp [getProp, h]
      · simp [getProp, h, ih]

theorem getProp_map_replace (a b : JObj) (k : String) :
    getProp (a.map (fun kv =>
      match getProp b kv.1 with
      | some v => (kv.1, v)
      | none => kv)) k
    = (getProp a k).map (fun v => (getProp b k).getD v) := by
  induction a with
  | nil => simp [getProp]
  | cons kv rest ih =>
      by_cases h : kv.1 = k
      · subst h
        cases hb : getProp b kv.1 <;> simp [getProp, hb]
      · cases hb : getProp b kv.1 <;> simp [getProp, hb, h, ih]

theorem getProp_filter_absent (a b : JObj) (k : String) (h : getProp a k = none) :
    getProp (b.filter (fun kv => (getProp a kv.1).isNone)) k = getProp b k := by
  induction b with
  | nil => rfl
  | cons kv rest ih =>
      by_cases hk : kv.1 = k
      · subst hk
        simp [List.filter, h, getProp]
      · cases ha : (getProp a kv.1).isNone <;>
          simp [List.filter, ha, getProp, hk, ih]

theorem getProp_objMerge (a b : JObj) (k : String) :
    getProp (objMerge a b) k = match getProp a k with
      | some v => some ((getProp b k).getD v)
      | none => getProp b k := by
  unfold objMerge
  rw [getProp_append, getProp_map_replace]
  cases ha : getProp a k with
  | some v => simp
  | none => simp [getProp_filter_absent a b k ha]

theorem objMerge_nil (a : JObj) : objMerge a [] = a := by
  unfold objMerge
  simp [getProp]

theorem getProp_map_setKey_self (o : JObj) (k : String) (v : JValue)
    (ho : (getProp o k).isSome = true) :
    getProp (o.map (fun kv => if kv.1 == k then (k, v) else kv)) k = some v := by
  induction o with
  | nil => simp [getProp] at ho
  | cons kv rest ih =>
      by_cases hk : kv.1 = k
      · simp [getProp, hk]
      · have hr : (getProp rest k).isSome = true := by
          simpa [getProp, hk] using ho
        simpa [getProp, hk] using ih hr

theorem getProp_map_setKey_other (o : JObj) (k k' : String) (v : JValue) (h : k' ≠ k) :
    getProp (o.map (fun kv => if kv.1 == k then (k, v) else kv)) k' = getProp o k' := by
  induction o with
  | nil => rfl
  | cons kv rest ih =>
      by_cases hk : kv.1 = k
      · simpa [getProp, hk, Ne.symm h] using ih
      · by_cases hk' : kv.1 = k'
        · simp [getProp, hk, hk', h]
        · simpa [getProp, hk, hk'] using ih

theorem getProp_setKey_self (o : JObj) (k : String) (v : JValue) :
    getProp (setKey o k v) k = some v := by
  rw [setKey]
  cases ho : (getProp o k).isSome
  · rw [if_neg (by simp [ho])]
    rw [getProp_append]
    have hn : getProp o k = none := by
      cases hg : getProp o k
      · rfl
      · rw [hg] at ho; simp at ho
    simp [hn, getProp]
  · rw [if_pos (by simp [ho])]
    exact getProp_map_setKey_self o k v ho

theorem getProp_setKey_other (o : JObj) (k k' : String) (v : JValue) (h : k' ≠ k) :
    getProp (setKey o k v) k' = getProp o k' := by
  rw [setKey]
  cases ho : (getProp o k).isSome
  · rw [if_neg (by simp [ho])]
    rw [getProp_append]
    cases hg : getProp o k' with
    | some v' => simp
    | none => simp [getProp, Ne.symm h]
  · rw [if_pos (by simp [ho])]
    exact getProp_map_setKey_other o k k' v h

/-! Lemmas about the array primitives. -/

theorem findIndexJS_some_get {p : α → Bool} {l : List α} {i : Nat}
    (h : findIndexJS p l = some i) :
    ∃ x, getAtJS l i = some x ∧ p x = true := by
  induction l generalizing i with
  | nil => simp [findIndexJS] at h
  | cons x xs ih =>
      rw [findIndexJS] at h
      by_cases hp : p x = true
      · rw [if_pos hp] at h
        cases h
        exact ⟨x, rfl, hp⟩
      · rw [if_neg hp] at h
        cases hf : findIndexJS p xs with
        | none => rw [hf] at h; simp at h
        | some j =>
            rw [hf] at h
            simp only [Option.map_some'] at h
            cases h
            obtain ⟨y, hy, hpy⟩ := ih hf
            exact ⟨y, by simpa [getAtJS] using hy, hpy⟩

theorem findIndexJS_none {p : α → Bool} {l : List α}
    (h : ∀ x ∈ l, p x = false) : findIndexJS p l = none := by
  induction l with
  | nil => rfl
  | cons x xs ih =>
      rw [findIndexJS, if_neg (by simp [h x (by simp)])]
      rw [ih (fun y hy => h y (by simp [hy]))]
      rfl

theorem findJS_none {p : α → Bool} {l : List α}
    (h : ∀ x ∈ l, p x = false) : findJS p l = none := by
  induction l with
  | nil => rfl
  | cons x xs ih =>
      rw [findJS, if_neg (by simp [h x (by simp)])]
      exact ih (fun y hy => h y (by simp [hy]))

theorem mem_setAtJS {l : List α} {i : Nat} {v y : α} (h : y ∈ setAtJS l i v) :
    y = v ∨ y ∈ l := by
  induction l generalizing i with
  | nil => simp [setAtJS] at h
  | cons x xs ih =>
      cases i with
      | zero =>
          rcases by simpa [setAtJS] using h with h1 | h2
          · exact Or.inl h1
          · exact Or.inr (by simp [h2])
      | succ n =>
          rcases by simpa [setAtJS] using h with h1 | h2
          · exact Or.inr (by simp [h1])
          · rcases ih h2 with h3 | h4
            · exact Or.inl h3
            · exact Or.inr (by simp [h4])

theorem mem_removeAtJS {l : List α} {i : Nat} {y : α} (h : y ∈ removeAtJS l i) :
    y ∈ l := by
  induction l generalizing i with
  | nil => simp [removeAtJS] at h
  | cons x xs ih =>
      cases i with
      | zero => exact List.mem_cons_of_mem x (by simpa [removeAtJS] using h)
      | succ n =>
          rcases by simpa [removeAtJS] using h with h1 | h2
          · exact List.mem_cons.mpr (Or.inl h1)
          · exact List.mem_cons.mpr (Or.inr (ih h2))

theorem setAtJS_self {l : List α} {i : Nat} {x : α} (h : getAtJS l i = some x) :
    setAtJS l i x = l := by
  induction l generalizing i with
  | nil => simp [getAtJS] at h
  | cons y ys ih =>
      cases i with
      | zero =>
          have : y = x := by simpa [getAtJS] using h
          simp [setAtJS, this]
      | succ n =>
          rw [setAtJS, ih (by simpa [getAtJS] using h)]

theorem getAtJS_setAtJS {l : List α} {i : Nat} {x v : α} (h : getAtJS l i = some x) :
    getAtJS (setAtJS l i v) i = some v := by
  induction l generalizing i with
  | nil => simp [getAtJS] at h
  | cons y ys ih =>
      cases i with
      | zero => rfl
      | succ n => exact ih (by simpa [getAtJS] using h)

theorem mem_of_getAtJS {l : List α} {i : Nat} {x : α} (h : getAtJS l i = some x) :
    x ∈ l := by
  induction l generalizing i with
  | nil => simp [getAtJS] at h
  | cons y ys ih =>
      cases i with
      | zero =>
          have he : y = x := Option.some.inj (by simpa [getAtJS] using h)
          simp [he]
      | succ m => exact List.mem_cons_of_mem y (ih (by simpa [getAtJS] using h))

/-! Lemmas about the number of entries carrying a given key. -/

/-- Number of entries of an object with key `k`. Objects coming from the
JSON codec or built by the handlers carry each key at most once. -/
def countKey (o : JObj) (k : String) : Nat :=
  o.countP (fun kv => kv.1 == k)

theorem countKey_append (a b : JObj) (k : String) :
    countKey (a ++ b) k = countKey a k + countKey b k := by
  simp [countKey, List.countP_append]

theorem countKey_map_replace (a b : JObj) (k : String) :
    countKey (a.map (fun kv =>
      match getProp b kv.1 with
      | some v => (kv.1, v)
      | none => kv)) k = countKey a k := by
  induction a with
  | nil => rfl
  | cons kv rest ih =>
      cases hb : getProp b kv.1 <;>
        simp [countKey, List.countP_cons, hb] at ih ⊢ <;> omega

theorem countKey_filter_absentKey (a b : JObj) (k : String)
    (h : (getProp a k).isSome = true) :
    countKey (b.filter (fun kv => (getProp a kv.1).isNone)) k = 0 := by
  induction b with
  | nil => rfl
  | cons kv rest ih =>
      by_cases hn : (getProp a kv.1).isNone = true
      · rw [List.filter_cons, if_pos hn]
        by_cases hk : kv.1 = k
        · rw [hk, Option.isNone_iff_eq_none] at hn
          rw [hn] at h
          simp at h
        · simpa [countKey, List.countP_cons, hk] using ih
      · rw [List.filter_cons, if_neg hn]
        exact ih

theorem isSome_getProp_of_countKey_one {o : JObj} {k : String}
    (h : countKey o k = 1) : (getProp o k).isSome = true := by
  induction o with
  | nil => simp [countKey] at h
  | cons kv rest ih =>
      by_cases hk : kv.1 = k
      · simp [getProp, hk]
      · rw [getProp, if_neg (by simp [hk])]
        exact ih (by simpa [countKey, List.countP_cons, hk] using h)

theorem countKey_map_setKey (o : JObj) (k : String) (v : JValue) :
    countKey (o.map (fun kv => if kv.1 == k then (k, v) else kv)) k = countKey o k := by
  induction o with
  | nil => rfl
  | cons kv rest ih =>
      by_cases hk : kv.1 = k
      · simpa [countKey, List.countP_cons, hk] using ih
      · simpa [countKey, List.countP_cons, hk] using ih

theorem countKey_setKey_present (o : JObj) (k : String) (v : JValue)
    (h : (getProp o k).isSome = true) :
    countKey (setKey o k v) k = countKey o k := by
  rw [setKey, if_pos (by simp [h])]
  exact countKey_map_setKey o k v

theorem countKey_objMerge_one {a b : JObj} {k : String}
    (h : countKey a k = 1) : countKey (objMerge a b) k = 1 := by
  rw [objMerge, countKey_append, countKey_map_replace,
    countKey_filter_absentKey a b k (isSome_getProp_of_countKey_one h), h]

theorem map_replace_eq_self_of_countKey_zero {o : JObj} {k : String} {v : JValue}
    (h : countKey o k = 0) :
    o.map (fun kv => if kv.1 == k then (k, v) else kv) = o := by
  induction o with
  | nil => rfl
  | cons kv rest ih =>
      by_cases hk : kv.1 = k
      · simp [countKey, List.countP_cons, hk] at h
      · have hz : countKey rest k = 0 := by
          simpa [countKey, List.countP_cons, hk] using h
        rw [List.map_cons, ih hz, if_neg (show ¬ ((kv.1 == k) = true) by simp [hk])]

theorem setKey_eq_self {o : JObj} {k : String} {v : JValue}
    (hg : getProp o k = some v) (hc : countKey o k = 1) :
    setKey o k v = o := by
  rw [setKey, if_pos (by simp [hg])]
  induction o with
  | nil => simp [getProp] at hg
  | cons kv rest ih =>
      by_cases hk : kv.1 = k
      · have hv : v = kv.2 := by
          have h2 := hg
          rw [getProp, if_pos (by simp [hk])] at h2
          exact (Option.some.inj h2).symm
        have hz : countKey rest k = 0 := by
          simpa [countKey, List.countP_cons, hk] using hc
        rw [List.map_cons, map_replace_eq_self_of_countKey_zero hz,
          if_pos (show (kv.1 == k) = true by simp [hk]), hv, ← hk, Prod.mk.eta]
      · have hg' : getProp rest k = some v := by
          rw [getProp, if_neg (by simp [hk])] at hg
          exact hg
        have hc' : countKey rest k = 1 := by
          simpa [countKey, List.countP_cons, hk] using hc
        rw [List.map_cons, ih hg' hc', if_neg (show ¬ ((kv.1 == k) = true) by simp [hk])]

/-! What a passing validation report guarantees, block by block. -/

theorem validate_nil_blocks {data : JObj} {u : Bool}
    (h : validateMenuItem data u = []) :
    nameErrors data u = [] ∧ descriptionErrors data u = [] ∧
    priceErrors data u = [] ∧ categoryErrors data u = [] ∧
    ingredientsErrors data u = [] ∧ availableErrors data = [] := by
  rw [validateMenuItem] at h
  simpa [List.append_eq_nil] using h

theorem nameErrors_nil {data : JObj} {u : Bool}
    (hc : (!u || (getProp data "name").isSome) = true)
    (h : nameErrors data u = []) :
    ∃ s, getProp data "name" = some (JValue.str s) ∧ 3 ≤ s.length := by
  rw [nameErrors, if_pos hc] at h
  cases hg : getProp data "name" with
  | none => rw [hg] at h; simp [truthy] at h
  | some v =>
      cases v with
      | str s =>
          rw [hg] at h
          by_cases hs : s = ""
          · subst hs; simp [truthy] at h
          · simp [truthy, hs] at h
            exact ⟨s, rfl, by omega⟩
      | num q => rw [hg] at h; by_cases hq : q = 0 <;> simp [truthy, hq] at h
      | bool b => rw [hg] at h; cases b <;> simp [truthy] at h
      | null => rw [hg] at h; simp [truthy] at h
      | arr xs => rw [hg] at h; simp [truthy] at h
      | obj o => rw [hg] at h; simp [truthy] at h

theorem descriptionErrors_nil {data : JObj} {u : Bool}
    (hc : (!u || (getProp data "description").isSome) = true)
    (h : descriptionErrors data u = []) :
    ∃ s, getProp data "description" = some (JValue.str s) ∧ 10 ≤ s.length := by
  rw [descriptionErrors, if_pos hc] at h
  cases hg : getProp data "description" with
  | none => rw [hg] at h; simp [truthy] at h
  | some v =>
      cases v with
      | str s =>
          rw [hg] at h
          by_cases hs : s = ""
          · subst hs; simp [truthy] at h
          · simp [truthy, hs] at h
            exact ⟨s, rfl, by omega⟩
      | num q => rw [hg] at h; by_cases hq : q = 0 <;> simp [truthy, hq] at h
      | bool b => rw [hg] at h; cases b <;> simp [truthy] at h
      | null => rw [hg] at h; simp [truthy] at h
      | arr xs => rw [hg] at h; simp [truthy] at h
      | obj o => rw [hg] at h; simp [truthy] at h

theorem priceErrors_nil {data : JObj} {u : Bool}
    (hc : (!u || (getProp data "price").isSome) = true)
    (h : priceErrors data u = []) :
    ∃ q : Rat, getProp data "price" = some (JValue.num q) ∧ 0 < q := by
  rw [priceErrors, if_pos hc] at h
  cases hg : getProp data "price" with
  | none => rw [hg] at h; simp at h
  | some v =>
      cases v with
      | num q =>
          rw [hg] at h
          by_cases hq : q ≤ 0
          · simp [hq] at h
          · exact ⟨q, rfl, by exact lt_of_not_le hq⟩
      | str s => rw [hg] at h; simp at h
      | bool b => rw [hg] at h; simp at h
      | null => rw [hg] at h; simp at h
      | arr xs => rw [hg] at h; simp at h
      | obj o => rw [hg] at h; simp at h

theorem categoryErrors_nil {data : JObj} {u : Bool}
    (hc : (!u || (getProp data "category").isSome) = true)
    (h : categoryErrors data u = []) :
    ∃ s, getProp data "category" = some (JValue.str s) ∧
      validCategories.contains s = true := by
  rw [categoryErrors, if_pos hc] at h
  cases hg : getProp data "category" with
  | none => rw [hg] at h; simp [truthy] at h
  | some v =>
      cases v with
      | str s =>
          rw [hg] at h
          by_cases hs : s = ""
          · subst hs; simp [truthy] at h
          · simp [truthy, hs] at h
            exact ⟨s, rfl, by simpa using h⟩
      | num q => rw [hg] at h; by_cases hq : q = 0 <;> simp [truthy, hq] at h
      | bool b => rw [hg] at h; cases b <;> simp [truthy] at h
      | null => rw [hg] at h; simp [truthy] at h
      | arr xs => rw [hg] at h; simp [truthy] at h
      | obj o => rw [hg] at h; simp [truthy] at h

theorem ingredientsErrors_nil {data : JObj} {u : Bool}
    (hc : (!u || (getProp data "ingredients").isSome) = true)
    (h : ingredientsErrors data u = []) :
    ∃ xs, getProp data "ingredients" = some (JValue.arr xs) ∧ 1 ≤ xs.length ∧
      ∀ x ∈ xs, ∃ s, x = JValue.str s ∧ trimJS s ≠ "" := by
  rw [ingredientsErrors, if_pos hc] at h
  cases hg : getProp data "ingredients" with
  | none => rw [hg] at h; simp [truthy] at h
  | some v =>
      cases v with
      | arr xs =>
          rw [hg] at h
          by_cases hl : xs.length < 1
          · simp [truthy, hl] at h
          · by_cases ha : xs.any (fun ing =>
                match ing with
                | JValue.str s => (trimJS s).length == 0
                | _ => true) = true
            · simp [truthy, hl, ha] at h
            · refine ⟨xs, rfl, by omega, ?_⟩
              intro x hx
              have hb := List.any_eq_false.mp (Bool.eq_false_iff.mpr ha) x hx
              cases x with
              | str s =>
                  refine ⟨s, rfl, ?_⟩
                  intro he
                  simp [he] at hb
              | num q => simp at hb
              | bool b => simp at hb
              | null => simp at hb
              | arr ys => simp at hb
              | obj o => simp at hb
      | str s =>
          rw [hg] at h
          by_cases hs : s = "" <;> simp [truthy, hs] at h
      | num q => rw [hg] at h; by_cases hq : q = 0 <;> simp [truthy, hq] at h
      | bool b => rw [hg] at h; cases b <;> simp [truthy] at h
      | null => rw [hg] at h; simp [truthy] at h
      | obj o => rw [hg] at h; simp [truthy] at h

theorem availableErrors_nil {data : JObj}
    (h : availableErrors data = []) :
    ∀ v, getProp data "available" = some v → ∃ b, v = JValue.bool b := by
  intro v hg
  rw [availableErrors, hg] at h
  cases v with
  | bool b => exact ⟨b, rfl⟩
  | str s => simp at h
  | num q => simp at h
  | null => simp at h
  | arr xs => simp at h
  | obj o => simp at h

/-! The field constraints of the MenuItem data model, as executable checks. -/

/-- Check of the id constraint: a positive integer. -/
def idCheck : Option JValue → Bool
  | some (JValue.num q) => decide (0 < q) && (q.den == 1)
  | _ => false

/-- Check of a string constraint with minimum length `m`. -/
def strCheck (m : Nat) : Option JValue → Bool
  | some (JValue.str s) => decide (m ≤ s.length)
  | _ => false

/-- Check of the price constraint: a number greater than 0. -/
def priceCheck : Option JValue → Bool
  | some (JValue.num q) => decide (0 < q)
  | _ => false

/-- Check of the category constraint: one of the four category names. -/
def catCheck : Option JValue → Bool
  | some (JValue.str s) => validCategories.contains s
  | _ => false

/-- Check of the ingredients constraint: an array of at least one string
that is non-empty after trimming. -/
def ingCheck : Option JValue → Bool
  | some (JValue.arr xs) =>
      decide (1 ≤ xs.length) && xs.all (fun x =>
        match x with
        | JValue.str s => trimJS s != ""
        | _ => false)
  | _ => false

/-- Check of the available constraint: a boolean. -/
def availCheck : Option JValue → Bool
  | some (JValue.bool _) => true
  | _ => false

/-- Check that a record satisfies every field constraint of the MenuItem
data model. -/
def validItemB (item : JObj) : Bool :=
  idCheck (getProp item "id") && strCheck 3 (getProp item "name") &&
  strCheck 10 (getProp item "description") && priceCheck (getProp item "price") &&
  catCheck (getProp item "category") && ingCheck (getProp item "ingredients") &&
  availCheck (getProp item "available")

theorem validItemB_iff {item : JObj} :
    validItemB item = true ↔
      idCheck (getProp item "id") = true ∧ strCheck 3 (getProp item "name") = true ∧
      strCheck 10 (getProp item "description") = true ∧
      priceCheck (getProp item "price") = true ∧
      catCheck (getProp item "category") = true ∧
      ingCheck (getProp item "ingredients") = true ∧
      availCheck (getProp item "available") = true := by
  rw [validItemB]
  simp [Bool.and_eq_true, and_assoc]

theorem idCheck_of {n : Int} (h : 0 < n) :
    idCheck (some (JValue.num (n : Rat))) = true := by
  simp only [idCheck, Bool.and_eq_true, decide_eq_true_eq, beq_iff_eq]
  exact ⟨by exact_mod_cast h, Rat.den_intCast n⟩

theorem strCheck_of {s : String} {m : Nat} (h : m ≤ s.length) :
    strCheck m (some (JValue.str s)) = true := by
  simp [strCheck, h]

theorem priceCheck_of {q : Rat} (h : 0 < q) :
    priceCheck (some (JValue.num q)) = true := by
  simp [priceCheck, h]

theorem catCheck_of {s : String} (h : validCategories.contains s = true) :
    catCheck (some (JValue.str s)) = true := h

theorem ingCheck_of {xs : List JValue} (h1 : 1 ≤ xs.length)
    (h2 : ∀ x ∈ xs, ∃ s, x = JValue.str s ∧ trimJS s ≠ "") :
    ingCheck (some (JValue.arr xs)) = true := by
  simp only [ingCheck, Bool.and_eq_true, decide_eq_true_eq, List.all_eq_true]
  refine ⟨h1, ?_⟩
  intro x hx
  obtain ⟨s, rfl, hs⟩ := h2 x hx
  simpa using hs

theorem availCheck_of {b : Bool} : availCheck (some (JValue.bool b)) = true := rfl

theorem idCheck_elim {ov : Option JValue} (h : idCheck ov = true) :
    ∃ q : Rat, 0 < q ∧ q.den = 1 ∧ ov = some (JValue.num q) := by
  cases ov with
  | none => simp [idCheck] at h
  | some v =>
      cases v with
      | num q =>
          simp only [idCheck, Bool.and_eq_true, decide_eq_true_eq, beq_iff_eq] at h
          exact ⟨q, h.1, h.2, rfl⟩
      | str s => simp [idCheck] at h
      | bool b => simp [idCheck] at h
      | null => simp [idCheck] at h
      | arr xs => simp [idCheck] at h
      | obj o => simp [idCheck] at h

theorem strCheck_elim {ov : Option JValue} {m : Nat} (h : strCheck m ov = true) :
    ∃ s, ov = some (JValue.str s) ∧ m ≤ s.length := by
  cases ov with
  | none => simp [strCheck] at h
  | some v =>
      cases v with
      | str s => exact ⟨s, rfl, by simpa [strCheck] using h⟩
      | num q => simp [strCheck] at h
      | bool b => simp [strCheck] at h
      | null => simp [strCheck] at h
      | arr xs => simp [strCheck] at h
      | obj o => simp [strCheck] at h

theorem priceCheck_elim {ov : Option JValue} (h : priceCheck ov = true) :
    ∃ q : Rat, ov = some (JValue.num q) ∧ 0 < q := by
  cases ov with
  | none => simp [priceCheck] at h
  | some v =>
      cases v with
      | num q => exact ⟨q, rfl, by simpa [priceCheck] using h⟩
      | str s => simp [priceCheck] at h
      | bool b => simp [priceCheck] at h
      | null => simp [priceCheck] at h
      | arr xs => simp [priceCheck] at h
      | obj o => simp [priceCheck] at h

theorem catCheck_elim {ov : Option JValue} (h : catCheck ov = true) :
    ∃ s, ov = some (JValue.str s) ∧ validCategories.contains s = true := by
  cases ov with
  | none => simp [catCheck] at h
  | some v =>
      cases v with
      | str s => exact ⟨s, rfl, h⟩
      | num q => simp [catCheck] at h
      | bool b => simp [catCheck] at h
      | null => simp [catCheck] at h
      | arr xs => simp [catCheck] at h
      | obj o => simp [catCheck] at h

theorem ingCheck_elim {ov : Option JValue} (h : ingCheck ov = true) :
    ∃ xs, ov = some (JValue.arr xs) ∧ 1 ≤ xs.length ∧
      ∀ x ∈ xs, ∃ s, x = JValue.str s ∧ trimJS s ≠ "" := by
  cases ov with
  | none => simp [ingCheck] at h
  | some v =>
      cases v with
      | arr xs =>
          simp only [ingCheck, Bool.and_eq_true, decide_eq_true_eq, List.all_eq_true] at h
          refine ⟨xs, rfl, h.1, ?_⟩
          intro x hx
          have hb := h.2 x hx
          cases x with
          | str s => exact ⟨s, rfl, by simpa using hb⟩
          | num q => simp at hb
          | bool b => simp at hb
          | null => simp at hb
          | arr ys => simp at hb
          | obj o => simp at hb
      | str s => simp [ingCheck] at h
      | num q => simp [ingCheck] at h
      | bool b => simp [ingCheck] at h
      | null => simp [ingCheck] at h
      | obj o => simp [ingCheck] at h

theorem availCheck_elim {ov : Option JValue} (h : availCheck ov = true) :
    ∃ b, ov = some (JValue.bool b) := by
  cases ov with
  | none => simp [availCheck] at h
  | some v =>
      cases v with
      | bool b => exact ⟨b, rfl⟩
      | str s => simp [availCheck] at h
      | num q => simp [availCheck] at h
      | null => simp [availCheck] at h
      | arr xs => simp [availCheck] at h
      | obj o => simp [availCheck] at h

/-- Invariant maintained by the store across its lifetime: a positive id
counter, and every stored record valid with exactly one id entry. -/
def GoodState (st : StoreState) : Prop :=
  0 < st.nextId ∧
  ∀ item ∈ st.menuItems, validItemB item = true ∧ countKey item "id" = 1

theorem goodState_initial : GoodState initialState := by
  constructor
  · norm_num [initialState]
  · decide

/-! Field values of the record built by the POST handler. -/

theorem mkNewItem_id (nid : Int) (body : JObj) :
    getProp (mkNewItem nid body) "id" = some (JValue.num (nid : Rat)) := rfl

theorem mkNewItem_name (nid : Int) (body : JObj) :
    getProp (mkNewItem nid body) "name"
      = some ((getProp body "name").getD JValue.null) := rfl

theorem mkNewItem_description (nid : Int) (body : JObj) :
    getProp (mkNewItem nid body) "description"
      = some ((getProp body "description").getD JValue.null) := rfl

theorem mkNewItem_price (nid : Int) (body : JObj) :
    getProp (mkNewItem nid body) "price"
      = some ((getProp body "price").getD JValue.null) := rfl

theorem mkNewItem_category (nid : Int) (body : JObj) :
    getProp (mkNewItem nid body) "category"
      = some ((getProp body "category").getD JValue.null) := rfl

theorem mkNewItem_ingredients (nid : Int) (body : JObj) :
    getProp (mkNewItem nid body) "ingredients"
      = some ((getProp body "ingredients").getD JValue.null) := rfl

theorem mkNewItem_available (nid : Int) (body : JObj) :
    getProp (mkNewItem nid body) "available"
      = some ((getProp body "available").getD (JValue.bool true)) := rfl

/-- A record built by the POST handler from a fully validated payload
satisfies every field constraint. -/
theorem validItemB_mkNewItem {nid : Int} {body : JObj} (hn : 0 < nid)
    (h : validateMenuItem body false = []) :
    validItemB (mkNewItem nid body) = true := by
  obtain ⟨h1, h2, h3, h4, h5, h6⟩ := validate_nil_blocks h
  obtain ⟨s1, e1, l1⟩ := nameErrors_nil (by simp) h1
  obtain ⟨s2, e2, l2⟩ := descriptionErrors_nil (by simp) h2
  obtain ⟨q3, e3, l3⟩ := priceErrors_nil (by simp) h3
  obtain ⟨s4, e4, l4⟩ := categoryErrors_nil (by simp) h4
  obtain ⟨x5, e5, l5, a5⟩ := ingredientsErrors_nil (by simp) h5
  rw [validItemB_iff]
  refine ⟨?_, ?_, ?_, ?_, ?_, ?_, ?_⟩
  · rw [mkNewItem_id]
    exact idCheck_of hn
  · rw [mkNewItem_name, e1, Option.getD_some]
    exact strCheck_of l1
  · rw [mkNewItem_description, e2, Option.getD_some]
    exact strCheck_of l2
  · rw [mkNewItem_price, e3, Option.getD_some]
    exact priceCheck_of l3
  · rw [mkNewItem_category, e4, Option.getD_some]
    exact catCheck_of l4
  · rw [mkNewItem_ingredients, e5, Option.getD_some]
    exact ingCheck_of l5 a5
  · rw [mkNewItem_available]
    cases hb : getProp body "available" with
    | none => exact availCheck_of
    | some w =>
        obtain ⟨b, hbv⟩ := availableErrors_nil h6 w hb
        rw [Option.getD_some, hbv]
        exact availCheck_of

/-- A field other than id of the merged record written by the PUT handler
passes its check, provided the old value passes it and any supplied value
passes it. -/
theorem updated_field_check {old body : JObj} {f : String} {vold : JValue}
    {check : Option JValue → Bool} {pid : Option Int}
    (hne : f ≠ "id")
    (holdv : getProp old f = some vold) (hcheckold : check (some vold) = true)
    (hbody : ∀ w, getProp body f = some w → check (some w) = true) :
    check (getProp (setKey (objMerge old body) "id" (parsedIdValue pid)) f) = true := by
  rw [getProp_setKey_other _ _ _ _ hne, getProp_objMerge, holdv]
  cases hb : getProp body f with
  | none => simpa [hb] using hcheckold
  | some w => simpa [hb] using hbody w hb

/-- The record written back by the PUT handler satisfies every field
constraint and keeps a single id entry, whenever the old record did, the
old record matched the parsed id, and the supplied fields validated. -/
theorem validItemB_updated {old body : JObj} {pid : Option Int}
    (hold : validItemB old = true) (hcnt : countKey old "id" = 1)
    (hmatch : idMatches old pid = true)
    (hv : validateMenuItem body true = []) :
    validItemB (setKey (objMerge old body) "id" (parsedIdValue pid)) = true ∧
    countKey (setKey (objMerge old body) "id" (parsedIdValue pid)) "id" = 1 := by
  obtain ⟨hid, hname, hdesc, hprice, hcat, hing, hav⟩ := validItemB_iff.mp hold
  obtain ⟨b1, b2, b3, b4, b5, b6⟩ := validate_nil_blocks hv
  obtain ⟨q, hq0, hqden, hgid⟩ := idCheck_elim hid
  cases pid with
  | none =>
      unfold idMatches at hmatch
      rw [hgid] at hmatch
      simp at hmatch
  | some n =>
      have hqn : q = (n : Rat) := by
        have h2 := hmatch
        unfold idMatches at h2
        rw [hgid] at h2
        simpa using h2
      constructor
      · rw [validItemB_iff]
        refine ⟨?_, ?_, ?_, ?_, ?_, ?_, ?_⟩
        · rw [getProp_setKey_self]
          rw [parsedIdValue]
          refine idCheck_of ?_
          have : (0 : Rat) < (n : Rat) := hqn ▸ hq0
          exact_mod_cast this
        · obtain ⟨s, hs, hl⟩ := strCheck_elim hname
          refine updated_field_check (by decide) hs (strCheck_of hl) ?_
          intro w hw
          obtain ⟨s2, e2, l2⟩ := nameErrors_nil (by simp [hw]) b1
          rw [hw] at e2
          rw [Option.some.inj e2]
          exact strCheck_of l2
        · obtain ⟨s, hs, hl⟩ := strCheck_elim hdesc
          refine updated_field_check (by decide) hs (strCheck_of hl) ?_
          intro w hw
          obtain ⟨s2, e2, l2⟩ := descriptionErrors_nil (by simp [hw]) b2
          rw [hw] at e2
          rw [Option.some.inj e2]
          exact strCheck_of l2
        · obtain ⟨qp, hs, hl⟩ := priceCheck_elim hprice
          refine updated_field_check (by decide) hs (priceCheck_of hl) ?_
          intro w hw
          obtain ⟨q2, e2, l2⟩ := priceErrors_nil (by simp [hw]) b3
          rw [hw] at e2
          rw [Option.some.inj e2]
          exact priceCheck_of l2
        · obtain ⟨s, hs, hl⟩ := catCheck_elim hcat
          refine updated_field_check (by decide) hs (catCheck_of hl) ?_
          intro w hw
          obtain ⟨s2, e2, l2⟩ := categoryErrors_nil (by simp [hw]) b4
          rw [hw] at e2
          rw [Option.some.inj e2]
          exact catCheck_of l2
        · obtain ⟨xs, hs, hl, ha⟩ := ingCheck_elim hing
          refine updated_field_check (by decide) hs (ingCheck_of hl ha) ?_
          intro w hw
          obtain ⟨x2, e2, l2, a2⟩ := ingredientsErrors_nil (by simp [hw]) b5
          rw [hw] at e2
          rw [Option.some.inj e2]
          exact ingCheck_of l2 a2
        · obtain ⟨b, hs⟩ := availCheck_elim hav
          refine updated_field_check (by decide) hs availCheck_of ?_
          intro w hw
          obtain ⟨b2, e2⟩ := availableErrors_nil b6 w hw
          rw [e2]
          exact availCheck_of
      · rw [countKey_setKey_present _ _ _
          (isSome_getProp_of_countKey_one (countKey_objMerge_one hcnt))]
        exact countKey_objMerge_one hcnt

/-- The POST handler preserves the store invariant. -/
theorem goodState_post (st : StoreState) (body : JObj) (h : GoodState st) :
    GoodState (postMenu st body).2 := by
  cases hv : validateMenuItem body false with
  | cons e es => simpa [postMenu, hv] using h
  | nil =>
      obtain ⟨hp, hitems⟩ := h
      simp only [postMenu, hv]
      refine ⟨by show (0 : Int) < st.nextId + 1; omega, ?_⟩
      intro item hmem
      rcases List.mem_append.mp hmem with hold | hnew
      · exact hitems item hold
      · have he : item = mkNewItem st.nextId body := by simpa using hnew
        subst he
        exact ⟨validItemB_mkNewItem hp hv, rfl⟩

/-- The PUT handler preserves the store invariant. -/
theorem goodState_put (st : StoreState) (pid : Option Int) (body : JObj)
    (h : GoodState st) : GoodState (putMenu st pid body).2 := by
  cases hf : findIndexJS (fun item => idMatches item pid) st.menuItems with
  | none => simpa [putMenu, hf] using h
  | some index =>
      cases hv : validateMenuItem body true with
      | cons e es => simpa [putMenu, hf, hv] using h
      | nil =>
          cases hg : getAtJS st.menuItems index with
          | none => simpa [putMenu, hf, hv, hg] using h
          | some old =>
              obtain ⟨hp, hitems⟩ := h
              obtain ⟨x, hx, hxp⟩ := findIndexJS_some_get hf
              rw [hg] at hx
              have hxold : old = x := Option.some.inj hx
              subst hxold
              have hgood := hitems old (mem_of_getAtJS hg)
              simp only [putMenu, hf, hv, hg]
              refine ⟨hp, ?_⟩
              intro item hmem
              rcases mem_setAtJS hmem with rfl | holdmem
              · exact validItemB_updated hgood.1 hgood.2 hxp hv
              · exact hitems item holdmem

/-- The DELETE handler preserves the store invariant. -/
theorem goodState_del (st : StoreState) (pid : Option Int) (h : GoodState st) :
    GoodState (deleteMenu st pid).2 := by
  cases hf : findIndexJS (fun item => idMatches item pid) st.menuItems with
  | none => simpa [deleteMenu, hf] using h
  | some index =>
      cases hg : getAtJS st.menuItems index with
      | none => simpa [deleteMenu, hf, hg] using h
      | some deleted =>
          obtain ⟨hp, hitems⟩ := h
          simp only [deleteMenu, hf, hg]
          exact ⟨hp, fun item hmem => hitems item (mem_removeAtJS hmem)⟩

/-- Every request preserves the store invariant. -/
theorem goodState_applyOp (st : StoreState) (op : Op) (h : GoodState st) :
    GoodState (applyOp st op) := by
  cases op with
  | post body => exact goodState_post st body h
  | put pid body => exact goodState_put st pid body h
  | del pid => exact goodState_del st pid h

/-- The store invariant holds after any sequence of requests. -/
theorem goodState_run (ops : List Op) (st : StoreState) (h : GoodState st) :
    GoodState (run st ops) := by
  induction ops generalizing st with
  | nil => exact h
  | cons op rest ih => exact ih _ (goodState_applyOp st op h)

/-! Monotonicity of the id counter and bounds on assigned ids. -/

theorem putMenu_nextId (st : StoreState) (pid : Option Int) (body : JObj) :
    (putMenu st pid body).2.nextId = st.nextId := by
  cases hf : findIndexJS (fun item => idMatches item pid) st.menuItems with
  | none => simp [putMenu, hf]
  | some index =>
      cases hv : validateMenuItem body true with
      | cons e es => simp [putMenu, hf, hv]
      | nil =>
          cases hg : getAtJS st.menuItems index with
          | none => simp [putMenu, hf, hv, hg]
          | some old => simp [putMenu, hf, hv, hg]

theorem deleteMenu_nextId (st : StoreState) (pid : Option Int) :
    (deleteMenu st pid).2.nextId = st.nextId := by
  cases hf : findIndexJS (fun item => idMatches item pid) st.menuItems with
  | none => simp [deleteMenu, hf]
  | some index =>
      cases hg : getAtJS st.menuItems index with
      | none => simp [deleteMenu, hf, hg]
      | some old => simp [deleteMenu, hf, hg]

theorem nextId_le_applyOp (st : StoreState) (op : Op) :
    st.nextId ≤ (applyOp st op).nextId := by
  cases op with
  | post body =>
      cases hv : validateMenuItem body false with
      | cons e es => simp [applyOp, postMenu, hv]
      | nil =>
          have he : (applyOp st (Op.post body)).nextId = st.nextId + 1 := by
            simp [applyOp, postMenu, hv]
          omega
  | put pid body =>
      have he := putMenu_nextId st pid body
      simp [applyOp, he]
  | del pid =>
      have he := deleteMenu_nextId st pid
      simp [applyOp, he]

theorem nextId_le_run (ops : List Op) (st : StoreState) :
    st.nextId ≤ (run st ops).nextId := by
  induction ops generalizing st with
  | nil => exact le_refl _
  | cons op rest ih => exact le_trans (nextId_le_applyOp st op) (ih _)

theorem assignedIds_bounds (ops : List Op) (st : StoreState) :
    ∀ a ∈ assignedIds st ops, st.nextId ≤ a ∧ a < (run st ops).nextId := by
  induction ops generalizing st with
  | nil => simp [assignedIds]
  | cons op rest ih =>
      cases op with
      | post body =>
          intro a ha
          cases hv : validateMenuItem body false with
          | cons e es =>
              have ha2 : a ∈ assignedIds (applyOp st (Op.post body)) rest := by
                simpa [assignedIds, postMenu, hv] using ha
              have hb := ih _ a ha2
              have h2 := nextId_le_applyOp st (Op.post body)
              refine ⟨le_trans h2 hb.1, ?_⟩
              simpa [run] using hb.2
          | nil =>
              have ha2 : a = st.nextId ∨ a ∈ assignedIds (applyOp st (Op.post body)) rest := by
                simpa [assignedIds, postMenu, hv] using ha
              have hnext : (applyOp st (Op.post body)).nextId = st.nextId + 1 := by
                simp [applyOp, postMenu, hv]
              rcases ha2 with rfl | ha2
              · refine ⟨le_refl _, ?_⟩
                have hm := nextId_le_run rest (applyOp st (Op.post body))
                rw [hnext] at hm
                have hr : run st (Op.post body :: rest)
                    = run (applyOp st (Op.post body)) rest := rfl
                rw [hr]
                omega
              · have hb := ih _ a ha2
                have h2 := nextId_le_applyOp st (Op.post body)
                exact ⟨le_trans h2 hb.1, by simpa [run] using hb.2⟩
      | put pid body =>
          intro a ha
          have ha2 : a ∈ assignedIds (applyOp st (Op.put pid body)) rest := by
            simpa [assignedIds] using ha
          have hb := ih _ a ha2
          have h2 := nextId_le_applyOp st (Op.put pid body)
          exact ⟨le_trans h2 hb.1, by simpa [run] using hb.2⟩
      | del pid =>
          intro a ha
          have ha2 : a ∈ assignedIds (applyOp st (Op.del pid)) rest := by
            simpa [assignedIds] using ha
          have hb := ih _ a ha2
          have h2 := nextId_le_applyOp st (Op.del pid)
          exact ⟨le_trans h2 hb.1, by simpa [run] using hb.2⟩

theorem assignedIds_pairwise (ops : List Op) (st : StoreState) :
    List.Pairwise (fun a b => a < b) (assignedIds st ops) := by
  induction ops generalizing st with
  | nil => simp [assignedIds]
  | cons op rest ih =>
      cases op with
      | post body =>
          cases hv : validateMenuItem body false with
          | cons e es =>
              have he : assignedIds st (Op.post body :: rest)
                  = assignedIds (applyOp st (Op.post body)) rest := by
                simp [assignedIds, postMenu, hv]
              rw [he]
              exact ih _
          | nil =>
              have hnext : (applyOp st (Op.post body)).nextId = st.nextId + 1 := by
                simp [applyOp, postMenu, hv]
              have he : assignedIds st (Op.post body :: rest)
                  = st.nextId :: assignedIds (applyOp st (Op.post body)) rest := by
                simp [assignedIds, postMenu, hv]
              rw [he]
              refine List.pairwise_cons.mpr ⟨?_, ih _⟩
              intro b hb
              have h1 := (assignedIds_bounds rest _ b hb).1
              omega
      | put pid body =>
          have he : assignedIds st (Op.put pid body :: rest)
              = assignedIds (applyOp st (Op.put pid body)) rest := by
            simp [assignedIds]
          rw [he]
          exact ih _
      | del pid =>
          have he : assignedIds st (Op.del pid :: rest)
              = assignedIds (applyOp st (Op.del pid)) rest := by
            simp [assignedIds]
          rw [he]
          exact ih _

theorem allAssigned_pairwise (ops : List Op) :
    List.Pairwise (fun a b => a < b) (allAssigned ops) := by
  rw [allAssigned]
  refine List.pairwise_append.mpr ⟨by decide, assignedIds_pairwise ops initialState, ?_⟩
  intro a ha b hb
  have h1 := (assignedIds_bounds ops initialState b hb).1
  have h2 : initialState.nextId = 4 := rfl
  have h3 : a = 1 ∨ a = 2 ∨ a = 3 := by simpa using ha
  omega

theorem allAssigned_lt_nextId (ops : List Op) :
    ∀ a ∈ allAssigned ops, a < (run initialState ops).nextId := by
  intro a ha
  rw [allAssigned] at ha
  rcases List.mem_append.mp ha with h1 | h2
  · have h4 : (4 : Int) ≤ (run initialState ops).nextId := by
      have hm := nextId_le_run ops initialState
      have h2 : initialState.nextId = 4 := rfl
      omega
    have h3 : a = 1 ∨ a = 2 ∨ a = 3 := by simpa using h1
    omega
  · exact (assignedIds_bounds ops initialState a h2).2

/-! Accumulation of validation errors: one entry per violated field rule. -/

/-- The six fields of the validation table, in source order. -/
def allFields : List String :=
  ["name", "description", "price", "category", "ingredients", "available"]

/-- Violation of a field rule as the specification words it: a field that
participates in the check (always on create, when present on update, and
for available only when present) fails its type-and-bound rule. -/
def specFieldViolation (data : JObj) (isUpdate : Bool) : String → Bool
  | "name" =>
      (!isUpdate || (getProp data "name").isSome) && !(strCheck 3 (getProp data "name"))
  | "description" =>
      (!isUpdate || (getProp data "description").isSome) &&
        !(strCheck 10 (getProp data "description"))
  | "price" =>
      (!isUpdate || (getProp data "price").isSome) && !(priceCheck (getProp data "price"))
  | "category" =>
      (!isUpdate || (getProp data "category").isSome) && !(catCheck (getProp data "category"))
  | "ingredients" =>
      (!isUpdate || (getProp data "ingredients").isSome) &&
        !(ingCheck (getProp data "ingredients"))
  | "available" =>
      (getProp data "available").isSome && !(availCheck (getProp data "available"))
  | _ => false

theorem stringLength_eq_zero {s : String} (h : s.length = 0) : s = "" := by
  cases s with
  | mk l =>
      cases l with
      | nil => rfl
      | cons c cs => simp [String.length] at h

theorem nameErrors_shape (data : JObj) (u : Bool) :
    nameErrors data u = [] ∨ ∃ m, nameErrors data u = [⟨"name", m⟩] := by
  rw [nameErrors]
  split
  · split
    · exact Or.inr ⟨_, rfl⟩
    · split
      · split
        · exact Or.inr ⟨_, rfl⟩
        · exact Or.inl rfl
      · exact Or.inr ⟨_, rfl⟩
  · exact Or.inl rfl

theorem descriptionErrors_shape (data : JObj) (u : Bool) :
    descriptionErrors data u = [] ∨ ∃ m, descriptionErrors data u = [⟨"description", m⟩] := by
  rw [descriptionErrors]
  split
  · split
    · exact Or.inr ⟨_, rfl⟩
    · split
      · split
        · exact Or.inr ⟨_, rfl⟩
        · exact Or.inl rfl
      · exact Or.inr ⟨_, rfl⟩
  · exact Or.inl rfl

theorem priceErrors_shape (data : JObj) (u : Bool) :
    priceErrors data u = [] ∨ ∃ m, priceErrors data u = [⟨"price", m⟩] := by
  rw [priceErrors]
  split
  · split
    · exact Or.inr ⟨_, rfl⟩
    · exact Or.inr ⟨_, rfl⟩
    · split
      · exact Or.inr ⟨_, rfl⟩
      · exact Or.inl rfl
    · exact Or.inr ⟨_, rfl⟩
  · exact Or.inl rfl

theorem categoryErrors_shape (data : JObj) (u : Bool) :
    categoryErrors data u = [] ∨ ∃ m, categoryErrors data u = [⟨"category", m⟩] := by
  rw [categoryErrors]
  split
  · split
    · exact Or.inr ⟨_, rfl⟩
    · split
      · split
        · exact Or.inl rfl
        · exact Or.inr ⟨_, rfl⟩
      · exact Or.inr ⟨_, rfl⟩
  · exact Or.inl rfl

theorem ingredientsErrors_shape (data : JObj) (u : Bool) :
    ingredientsErrors data u = [] ∨ ∃ m, ingredientsErrors data u = [⟨"ingredients", m⟩] := by
  rw [ingredientsErrors]
  split
  · split
    · exact Or.inr ⟨_, rfl⟩
    · split
      · split
        · exact Or.inr ⟨_, rfl⟩
        · split
          · exact Or.inr ⟨_, rfl⟩
          · exact Or.inl rfl
      · exact Or.inr ⟨_, rfl⟩
  · exact Or.inl rfl

theorem availableErrors_shape (data : JObj) :
    availableErrors data = [] ∨ ∃ m, availableErrors data = [⟨"available", m⟩] := by
  rw [availableErrors]
  split
  · exact Or.inl rfl
  · exact Or.inl rfl
  · exact Or.inr ⟨_, rfl⟩

theorem nameErrors_nil_iff (data : JObj) (u : Bool) :
    nameErrors data u = [] ↔ specFieldViolation data u "name" = false := by
  simp only [specFieldViolation]
  constructor
  · intro h
    cases hc : (!u || (getProp data "name").isSome) with
    | false => simp [hc]
    | true =>
        obtain ⟨s, hs, hl⟩ := nameErrors_nil hc h
        simp [hc, hs, strCheck, hl]
  · intro h
    cases hc : (!u || (getProp data "name").isSome) with
    | false => rw [nameErrors, if_neg (by simp [hc])]
    | true =>
        rw [hc] at h
        have hst : strCheck 3 (getProp data "name") = true := by
          cases hst2 : strCheck 3 (getProp data "name")
          · simp [hst2] at h
          · rfl
        obtain ⟨s, hs, hl⟩ := strCheck_elim hst
        have hne : s ≠ "" := by
          intro he
          subst he
          simp at hl
        rw [nameErrors, if_pos hc, hs]
        rw [if_neg (by simp [truthy, hne])]
        have hnl : ¬ (s.length < 3) := by omega
        simp [hnl]

theorem descriptionErrors_nil_iff (data : JObj) (u : Bool) :
    descriptionErrors data u = [] ↔ specFieldViolation data u "description" = false := by
  simp only [specFieldViolation]
  constructor
  · intro h
    cases hc : (!u || (getProp data "description").isSome) with
    | false => simp [hc]
    | true =>
        obtain ⟨s, hs, hl⟩ := descriptionErrors_nil hc h
        simp [hc, hs, strCheck, hl]
  · intro h
    cases hc : (!u || (getProp data "description").isSome) with
    | false => rw [descriptionErrors, if_neg (by simp [hc])]
    | true =>
        rw [hc] at h
        have hst : strCheck 10 (getProp data "description") = true := by
          cases hst2 : strCheck 10 (getProp data "description")
          · simp [hst2] at h
          · rfl
        obtain ⟨s, hs, hl⟩ := strCheck_elim hst
        have hne : s ≠ "" := by
          intro he
          subst he
          simp at hl
        rw [descriptionErrors, if_pos hc, hs]
        rw [if_neg (by simp [truthy, hne])]
        have hnl : ¬ (s.length < 10) := by omega
        simp [hnl]

theorem priceErrors_nil_iff (data : JObj) (u : Bool) :
    priceErrors data u = [] ↔ specFieldViolation data u "price" = false := by
  simp only [specFieldViolation]
  constructor
  · intro h
    cases hc : (!u || (getProp data "price").isSome) with
    | false => simp [hc]
    | true =>
        obtain ⟨q, hs, h0⟩ := priceErrors_nil hc h
        simp [hc, hs, priceCheck, h0]
  · intro h
    cases hc : (!u || (getProp data "price").isSome) with
    | false => rw [priceErrors, if_neg (by simp [hc])]
    | true =>
        rw [hc] at h
        have hst : priceCheck (getProp data "price") = true := by
          cases hst2 : priceCheck (getProp data "price")
          · simp [hst2] at h
          · rfl
        obtain ⟨q, hs, h0⟩ := priceCheck_elim hst
        rw [priceErrors, if_pos hc, hs]
        have hn0 : ¬ (q ≤ 0) := not_le.mpr h0
        simp [hn0]

theorem categoryErrors_nil_iff (data : JObj) (u : Bool) :
    categoryErrors data u = [] ↔ specFieldViolation data u "category" = false := by
  simp only [specFieldViolation]
  constructor
  · intro h
    cases hc : (!u || (getProp data "category").isSome) with
    | false => simp [hc]
    | true =>
        obtain ⟨s, hs, hm⟩ := categoryErrors_nil hc h
        simp [hc, hs, catCheck]
        simpa using hm
  · intro h
    cases hc : (!u || (getProp data "category").isSome) with
    | false => rw [categoryErrors, if_neg (by simp [hc])]
    | true =>
        rw [hc] at h
        have hst : catCheck (getProp data "category") = true := by
          cases hst2 : catCheck (getProp data "category")
          · simp [hst2] at h
          · rfl
        obtain ⟨s, hs, hm⟩ := catCheck_elim hst
        have hne : s ≠ "" := by
          intro he
          subst he
          simp [validCategories] at hm
        rw [categoryErrors, if_pos hc, hs]
        rw [if_neg (by simp [truthy, hne])]
        simp only []
        rw [if_pos hm]

theorem ingredientsErrors_nil_iff (data : JObj) (u : Bool) :
    ingredientsErrors data u = [] ↔ specFieldViolation data u "ingredients" = false := by
  simp only [specFieldViolation]
  constructor
  · intro h
    cases hc : (!u || (getProp data "ingredients").isSome) with
    | false => simp [hc]
    | true =>
        obtain ⟨xs, hs, hl, ha⟩ := ingredientsErrors_nil hc h
        simp [hc, hs]
        exact ingCheck_of hl ha
  · intro h
    cases hc : (!u || (getProp data "ingredients").isSome) with
    | false => rw [ingredientsErrors, if_neg (by simp [hc])]
    | true =>
        rw [hc] at h
        have hst : ingCheck (getProp data "ingredients") = true := by
          cases hst2 : ingCheck (getProp data "ingredients")
          · simp [hst2] at h
          · rfl
        obtain ⟨xs, hs, hl, ha⟩ := ingCheck_elim hst
        rw [ingredientsErrors, if_pos hc, hs]
        rw [if_neg (by simp [truthy])]
        have hnl : ¬ (xs.length < 1) := by omega
        have hany : (xs.any (fun ing =>
            match ing with
            | JValue.str s => (trimJS s).length == 0
            | _ => true)) = false := by
          rw [List.any_eq_false]
          intro x hx
          obtain ⟨s, rfl, hts⟩ := ha x hx
          have hlen : (trimJS s).length ≠ 0 := by
            intro h0
            exact hts (stringLength_eq_zero h0)
          simpa using hlen
        simp [hnl, hany]

theorem availableErrors_nil_iff (data : JObj) (u : Bool) :
    availableErrors data = [] ↔ specFieldViolation data u "available" = false := by
  simp only [specFieldViolation]
  constructor
  · intro h
    cases hg : getProp data "available" with
    | none => simp [hg]
    | some v =>
        obtain ⟨b, hb⟩ := availableErrors_nil h v hg
        subst hb
        simp [hg, availCheck]
  · intro h
    cases hg : getProp data "available" with
    | none => rw [availableErrors, hg]
    | some v =>
        rw [hg] at h
        have hst : availCheck (some v) = true := by
          cases hst2 : availCheck (some v)
          · simp [hst2] at h
          · rfl
        obtain ⟨b, hb⟩ := availCheck_elim hst
        have hvb : v = JValue.bool b := Option.some.inj hb
        subst hvb
        rw [availableErrors, hg]

theorem if_singleton_append {c : Bool} (a : α) (l : List α) :
    (if c = true then [a] else []) ++ l = if c = true then a :: l else l := by
  cases c <;> simp

theorem nameErrors_map (data : JObj) (u : Bool) :
    (nameErrors data u).map FieldError.field
      = if specFieldViolation data u "name" = true then ["name"] else [] := by
  cases hv : specFieldViolation data u "name" with
  | false =>
      rw [(nameErrors_nil_iff data u).mpr hv]
      simp
  | true =>
      rcases nameErrors_shape data u with h | ⟨m, h⟩
      · rw [(nameErrors_nil_iff data u).mp h] at hv
        simp at hv
      · rw [h]
        simp
theorem descriptionErrors_map (data : JObj) (u : Bool) :
    (descriptionErrors data u).map FieldError.field
      = if specFieldViolation data u "description" = true then ["description"] else [] := by
  cases hv : specFieldViolation data u "description" with
  | false =>
      rw [(descriptionErrors_nil_iff data u).mpr hv]
      simp
  | true =>
      rcases descriptionErrors_shape data u with h | ⟨m, h⟩
      · rw [(descriptionErrors_nil_iff data u).mp h] at hv
        simp at hv
      · rw [h]
        simp

theorem priceErrors_map (data : JObj) (u : Bool) :
    (priceErrors data u).map FieldError.field
      = if specFieldViolation data u "price" = true then ["price"] else [] := by
  cases hv : specFieldViolation data u "price" with
  | false =>
      rw [(priceErrors_nil_iff data u).mpr hv]
      simp
  | true =>
      rcases priceErrors_shape data u with h | ⟨m, h⟩
      · rw [(priceErrors_nil_iff data u).mp h] at hv
        simp at hv
      · rw [h]
        simp

theorem categoryErrors_map (data : JObj) (u : Bool) :
    (categoryErrors data u).map FieldError.field
      = if specFieldViolation data u "category" = true then ["category"] else [] := by
  cases hv : specFieldViolation data u "category" with
  | false =>
      rw [(categoryErrors_nil_iff data u).mpr hv]
      simp
  | true =>
      rcases categoryErrors_shape data u with h | ⟨m, h⟩
      · rw [(categoryErrors_nil_iff data u).mp h] at hv
        simp at hv
      · rw [h]
        simp

theorem ingredientsErrors_map (data : JObj) (u : Bool) :
    (ingredientsErrors data u).map FieldError.field
      = if specFieldViolation data u "ingredients" = true then ["ingredients"] else [] := by
  cases hv : specFieldViolation data u "ingredients" with
  | false =>
      rw [(ingredientsErrors_nil_iff data u).mpr hv]
      simp
  | true =>
      rcases ingredientsErrors_shape data u with h | ⟨m, h⟩
      · rw [(ingredientsErrors_nil_iff data u).mp h] at hv
        simp at hv
      · rw [h]
        simp

theorem availableErrors_map (data : JObj) (u : Bool) :
    (availableErrors data).map FieldError.field
      = if specFieldViolation data u "available" = true then ["available"] else [] := by
  cases hv : specFieldViolation data u "available" with
  | false =>
      rw [(availableErrors_nil_iff data u).mpr hv]
      simp
  | true =>
      rcases availableErrors_shape data with h | ⟨m, h⟩
      · rw [(availableErrors_nil_iff data u).mp h] at hv
        simp at hv
      · rw [h]
        simp

/-- The fields reported by the validator are exactly the violated fields,
in table order: validation accumulates one entry per violated rule. -/
theorem validate_map_filter (data : JObj) (u : Bool) :
    (validateMenuItem data u).map FieldError.field
      = allFields.filter (specFieldViolation data u) := by
  rw [validateMenuItem, allFields]
  simp only [List.map_append]
  rw [nameErrors_map, descriptionErrors_map, priceErrors_map, categoryErrors_map,
    ingredientsErrors_map, availableErrors_map data u]
  simp only [List.filter_cons, List.filter_nil, List.append_assoc]
  rw [if_singleton_append, if_singleton_append, if_singleton_append,
    if_singleton_append, if_singleton_append]

/-! The claims. -/

/-- The creation payload of the first concrete scenario of the spec:
name Taco, a 33-character description, price 4.5, category entree, two
ingredients, no available field. -/
def tacoBody : JObj :=
  [("name", JValue.str "Taco"),
   ("description", JValue.str "A delicious taco with fresh salsa"),
   ("price", JValue.num (mkRat 9 2)),
   ("category", JValue.str "entree"),
   ("ingredients", JValue.arr [JValue.str "tortilla", JValue.str "beef"])]

/-- C1: stored-item validity invariant. Starting from the three seed
items, after any sequence of create, update and delete requests, every
record in the store satisfies all field constraints of the MenuItem data
model (name a string of length at least 3, description a string of length
at least 10, price a number greater than 0, category one of the four
category names, ingredients at least one non-empty-after-trim string,
available a boolean, and a positive integer id); no partially valid
record is ever persisted. -/
theorem c1_stored_item_validity (ops : List Op) :
    ∀ item ∈ (run initialState ops).menuItems, validItemB item = true := by
  intro item hmem
  exact ((goodState_run ops initialState goodState_initial).2 item hmem).1

/-- Witness of C1: the trace that creates the taco and deletes item 2,
checked on the first record of the resulting store. -/
theorem c1_stored_item_validity_witness :
    validItemB ((run initialState [Op.post tacoBody, Op.del (some 2)]).menuItems.headI)
      = true :=
  c1_stored_item_validity [Op.post tacoBody, Op.del (some 2)] _
    (@mem_of_getAtJS JObj
      (run initialState [Op.post tacoBody, Op.del (some 2)]).menuItems 0 _ rfl)

/-- C2: update merge semantics. For a stored item found by id and a
payload passing partial validation, the PUT handler stores and returns
the record obtained by shallowly replacing each supplied field with the
payload value, keeping id equal to the original id regardless of any id
in the payload, and keeping every unsupplied field (available included)
at its previous value. -/
theorem c2_update_merge (st : StoreState) (n : Int) (body : JObj)
    (hv : validateMenuItem body true = [])
    (i : Nat) (it : JObj)
    (hf : findIndexJS (fun item => idMatches item (some n)) st.menuItems = some i)
    (hg : getAtJS st.menuItems i = some it) :
    ∃ it2,
      putMenu st (some n) body
        = (PutResult.ok it2, { st with menuItems := setAtJS st.menuItems i it2 }) ∧
      getProp it2 "id" = getProp it "id" ∧
      (∀ k, k ≠ "id" →
        getProp it2 k = match getProp body k with
          | some w => some w
          | none => getProp it k) := by
  obtain ⟨x, hx, hxp⟩ := findIndexJS_some_get hf
  rw [hg] at hx
  have hxe : it = x := Option.some.inj hx
  subst hxe
  refine ⟨setKey (objMerge it body) "id" (parsedIdValue (some n)), ?_, ?_, ?_⟩
  · simp [putMenu, hf, hv, hg]
  · rw [getProp_setKey_self]
    have hxp2 : idMatches it (some n) = true := hxp
    unfold idMatches at hxp2
    cases hgid : getProp it "id" with
    | none => rw [hgid] at hxp2; simp at hxp2
    | some v =>
        rw [hgid] at hxp2
        cases v with
        | num q =>
            have hq : q = (n : Rat) := by simpa using hxp2
            rw [hq, parsedIdValue]
        | str s => simp at hxp2
        | bool b => simp at hxp2
        | null => simp at hxp2
        | arr xs => simp at hxp2
        | obj o => simp at hxp2
  · intro k hk
    rw [getProp_setKey_other _ _ _ _ hk, getProp_objMerge]
    cases hik : getProp it k with
    | some v => cases hbk : getProp body k <;> simp
    | none => cases hbk : getProp body k <;> simp

/-- Witness of C2: updating item 1 of the fresh store with price 10.5. -/
theorem c2_update_merge_witness :
    ∃ it2,
      putMenu initialState (some 1) [("price", JValue.num (mkRat 21 2))]
        = (PutResult.ok it2,
           { initialState with
              menuItems := setAtJS initialState.menuItems 0 it2 }) ∧
      getProp it2 "id" = getProp (initialState.menuItems.headI) "id" ∧
      (∀ k, k ≠ "id" →
        getProp it2 k
          = match getProp [("price", JValue.num (mkRat 21 2))] k with
            | some w => some w
            | none => getProp (initialState.menuItems.headI) k) :=
  c2_update_merge initialState 1 [("price", JValue.num (mkRat 21 2))] rfl 0
    (initialState.menuItems.headI) rfl rfl

/-- C3: validation accumulates across fields. The fields named in a
validation report are exactly the violated fields (never only the first);
in particular, a POST of the payload containing only the too-short name
Hi returns 400 with details for name, description, price, category and
ingredients, and leaves the store unchanged. -/
theorem c3_validation_accumulates :
    (∀ (data : JObj) (isUpdate : Bool),
      (validateMenuItem data isUpdate).map FieldError.field
        = allFields.filter (specFieldViolation data isUpdate)) ∧
    (postMenu initialState [("name", JValue.str "Hi")]).1.statusCode = 400 ∧
    (postMenu initialState [("name", JValue.str "Hi")]).2 = initialState ∧
    ∃ errs,
      (postMenu initialState [("name", JValue.str "Hi")]).1 = PostResult.badRequest errs ∧
      errs.map FieldError.field
        = ["name", "description", "price", "category", "ingredients"] :=
  ⟨validate_map_filter, rfl, rfl, ⟨_, rfl, rfl⟩⟩

/-- C4: NotFound precedes validation on update. For an id matching no
stored item and any payload, valid or not, the PUT handler returns 404
and leaves the state untouched; no validation outcome is consulted. -/
theorem c4_notfound_before_validation (st : StoreState) (pid : Option Int) (body : JObj)
    (h : ∀ item ∈ st.menuItems, idMatches item pid = false) :
    putMenu st pid body = (PutResult.notFound, st) ∧
    (putMenu st pid body).1.statusCode = 404 := by
  have hf : findIndexJS (fun item => idMatches item pid) st.menuItems = none :=
    findIndexJS_none h
  constructor
  · simp [putMenu, hf]
  · simp [putMenu, hf, PutResult.statusCode]

/-- Witness of C4: updating the missing id 99 with an invalid payload on
the fresh store. -/
theorem c4_notfound_before_validation_witness :
    putMenu initialState (some 99) [("name", JValue.num 1)]
        = (PutResult.notFound, initialState) ∧
    (putMenu initialState (some 99) [("name", JValue.num 1)]).1.statusCode = 404 :=
  c4_notfound_before_validation initialState (some 99) [("name", JValue.num 1)]
    (by decide)

/-- C5: id monotonicity and non-reuse. Along any trace of requests the
assigned ids, seed ids included, are strictly increasing (hence unique
and never reused after deletion), and a create on the reached store with
a valid payload returns the record carrying id `nextId`, which is
strictly greater than every previously assigned id. -/
theorem c5_id_monotonic (ops : List Op) (body : JObj)
    (hv : validateMenuItem body false = []) :
    List.Pairwise (fun a b => a < b) (allAssigned ops) ∧
    ∃ item st2,
      postMenu (run initialState ops) body = (PostResult.created item, st2) ∧
      getProp item "id"
        = some (JValue.num ((run initialState ops).nextId : Rat)) ∧
      ∀ a ∈ allAssigned ops, a < (run initialState ops).nextId := by
  refine ⟨allAssigned_pairwise ops, ?_⟩
  refine ⟨mkNewItem (run initialState ops).nextId body,
    { menuItems := (run initialState ops).menuItems
        ++ [mkNewItem (run initialState ops).nextId body],
      nextId := (run initialState ops).nextId + 1 }, ?_, ?_, ?_⟩
  · simp [postMenu, hv]
  · exact mkNewItem_id _ _
  · exact allAssigned_lt_nextId ops

/-- Witness of C5: creating the taco after a trace that already created
one item and deleted item 1. -/
theorem c5_id_monotonic_witness :
    List.Pairwise (fun a b => a < b)
      (allAssigned [Op.post tacoBody, Op.del (some 1)]) ∧
    ∃ item st2,
      postMenu (run initialState [Op.post tacoBody, Op.del (some 1)]) tacoBody
          = (PostResult.created item, st2) ∧
      getProp item "id"
        = some (JValue.num
            ((run initialState [Op.post tacoBody, Op.del (some 1)]).nextId : Rat)) ∧
      ∀ a ∈ allAssigned [Op.post tacoBody, Op.del (some 1)],
        a < (run initialState [Op.post tacoBody, Op.del (some 1)]).nextId :=
  c5_id_monotonic [Op.post tacoBody, Op.del (some 1)] tacoBody rfl

/-- C6: atomicity on failure. Whenever create, update or delete answers
with an error status (400 validation failure or 404 not found), the
collection and the next-id counter are left exactly as before. -/
theorem c6_atomic_failure (st : StoreState) (body : JObj) (pid : Option Int) :
    (400 ≤ (postMenu st body).1.statusCode → (postMenu st body).2 = st) ∧
    (400 ≤ (putMenu st pid body).1.statusCode → (putMenu st pid body).2 = st) ∧
    (400 ≤ (deleteMenu st pid).1.statusCode → (deleteMenu st pid).2 = st) := by
  refine ⟨?_, ?_, ?_⟩
  · intro h
    cases hv : validateMenuItem body false with
    | cons e es => simp [postMenu, hv]
    | nil => simp [postMenu, hv, PostResult.statusCode] at h
  · intro h
    cases hf : findIndexJS (fun item => idMatches item pid) st.menuItems with
    | none => simp [putMenu, hf]
    | some index =>
        cases hv : validateMenuItem body true with
        | cons e es => simp [putMenu, hf, hv]
        | nil =>
            cases hg : getAtJS st.menuItems index with
            | none => simp [putMenu, hf, hv, hg]
            | some old => simp [putMenu, hf, hv, hg, PutResult.statusCode] at h
  · intro h
    cases hf : findIndexJS (fun item => idMatches item pid) st.menuItems with
    | none => simp [deleteMenu, hf]
    | some index =>
        cases hg : getAtJS st.menuItems index with
        | none => simp [deleteMenu, hf, hg]
        | some old => simp [deleteMenu, hf, hg, DeleteResult.statusCode] at h

/-- Witness of C6: a failing create (short name), a failing update and a
failing delete (missing id 99) each leave the fresh store unchanged. -/
theorem c6_atomic_failure_witness :
    (postMenu initialState [("name", JValue.str "Hi")]).2 = initialState ∧
    (putMenu initialState (some 99) [("price", JValue.num 2)]).2 = initialState ∧
    (deleteMenu initialState (some 99)).2 = initialState :=
  ⟨(c6_atomic_failure initialState [("name", JValue.str "Hi")] (some 99)).1
      (by decide),
   (c6_atomic_failure initialState [("price", JValue.num 2)] (some 99)).2.1
      (by decide),
   (c6_atomic_failure initialState [("price", JValue.num 2)] (some 99)).2.2
      (by decide)⟩

/-- C7: a no-op update is the identity. For any reachable store and any id
present in it, a PUT with the empty field set succeeds, returns the stored
record unchanged, and leaves the whole store state exactly as it was. -/
theorem c7_noop_update (ops : List Op) (n : Int) (i : Nat) (it : JObj)
    (hf : findIndexJS (fun item => idMatches item (some n))
        (run initialState ops).menuItems = some i)
    (hg : getAtJS (run initialState ops).menuItems i = some it) :
    putMenu (run initialState ops) (some n) []
      = (PutResult.ok it, run initialState ops) := by
  have hgood := goodState_run ops initialState goodState_initial
  obtain ⟨x, hx, hxp⟩ := findIndexJS_some_get hf
  rw [hg] at hx
  have hxe : it = x := Option.some.inj hx
  subst hxe
  have hitem := hgood.2 it (mem_of_getAtJS hg)
  have hv : validateMenuItem [] true = [] := rfl
  obtain ⟨q, hq0, hqden, hgid⟩ := idCheck_elim (validItemB_iff.mp hitem.1).1
  have hxp2 : idMatches it (some n) = true := hxp
  have hq : q = (n : Rat) := by
    unfold idMatches at hxp2
    rw [hgid] at hxp2
    simpa using hxp2
  have hupd : setKey (objMerge it []) "id" (parsedIdValue (some n)) = it := by
    rw [objMerge_nil, parsedIdValue, ← hq]
    exact setKey_eq_self hgid hitem.2
  simp only [putMenu, hf, hv, hg]
  rw [hupd, setAtJS_self hg]

/-- Witness of C7: a no-op update of item 2 on the fresh store. -/
theorem c7_noop_update_witness :
    putMenu (run initialState []) (some 2) []
      = (PutResult.ok (getAtJS (run initialState []).menuItems 1).iget,
         run initialState []) :=
  c7_noop_update [] 2 1 _ rfl rfl

/-- C8: create postcondition with the available default. A payload passing
full validation is stored with the next sequential id at the end of the
collection under status 201, with available true when the payload omits
it; on the fresh store the taco payload yields 201 and a record with id 4
and available true. -/
theorem c8_create_postcondition (st : StoreState) (body : JObj)
    (hv : validateMenuItem body false = []) :
    (postMenu st body).1.statusCode = 201 ∧
    (∃ item,
      postMenu st body
        = (PostResult.created item,
           { menuItems := st.menuItems ++ [item], nextId := st.nextId + 1 }) ∧
      getProp item "id" = some (JValue.num (st.nextId : Rat)) ∧
      (getProp body "available" = none →
        getProp item "available" = some (JValue.bool true))) ∧
    (postMenu initialState tacoBody).1.statusCode = 201 ∧
    ∃ taco,
      (postMenu initialState tacoBody).1 = PostResult.created taco ∧
      getProp taco "id" = some (JValue.num 4) ∧
      getProp taco "available" = some (JValue.bool true) := by
  refine ⟨?_, ?_, rfl, ⟨_, rfl, rfl, rfl⟩⟩
  · simp [postMenu, hv, PostResult.statusCode]
  · refine ⟨mkNewItem st.nextId body, ?_, mkNewItem_id _ _, ?_⟩
    · simp [postMenu, hv]
    · intro h
      rw [mkNewItem_available, h, Option.getD_none]

/-- Witness of C8: the taco payload on the fresh store. -/
theorem c8_create_postcondition_witness :
    (postMenu initialState tacoBody).1.statusCode = 201 :=
  (c8_create_postcondition initialState tacoBody rfl).1

/-- C9: a path id that does not parse to the id of any stored item, the
non-numeric strings that parse to NaN included, makes getById, update and
delete all answer 404 NotFound without failing and without touching the
state; the comparison is total, and a NaN id can never match any item. -/
theorem c9_malformed_id (st : StoreState) (raw : String) (body : JObj)
    (h : ∀ item ∈ st.menuItems, idMatches item (parseIntJS raw) = false) :
    getMenuItem st (parseIntJS raw) = GetResult.notFound ∧
    (getMenuItem st (parseIntJS raw)).statusCode = 404 ∧
    putMenu st (parseIntJS raw) body = (PutResult.notFound, st) ∧
    deleteMenu st (parseIntJS raw) = (DeleteResult.notFound, st) ∧
    (parseIntJS raw = none → ∀ item : JObj, idMatches item (parseIntJS raw) = false) := by
  have hj : findJS (fun item => idMatches item (parseIntJS raw)) st.menuItems = none :=
    findJS_none h
  have hf : findIndexJS (fun item => idMatches item (parseIntJS raw)) st.menuItems
      = none := findIndexJS_none h
  refine ⟨?_, ?_, ?_, ?_, ?_⟩
  · simp [getMenuItem, hj]
  · simp [getMenuItem, hj, GetResult.statusCode]
  · simp [putMenu, hf]
  · simp [deleteMenu, hf]
  · intro hn item
    rw [hn]
    rfl

/-- Witness of C9: the non-numeric path id abc on the fresh store. -/
theorem c9_malformed_id_witness :
    getMenuItem initialState (parseIntJS "abc") = GetResult.notFound ∧
    (getMenuItem initialState (parseIntJS "abc")).statusCode = 404 ∧
    putMenu initialState (parseIntJS "abc") [] = (PutResult.notFound, initialState) ∧
    deleteMenu initialState (parseIntJS "abc") = (DeleteResult.notFound, initialState) ∧
    (parseIntJS "abc" = none →
      ∀ item : JObj, idMatches item (parseIntJS "abc") = false) :=
  c9_malformed_id initialState "abc" [] (by decide)

/-- C10: update shallow-merges the whole request payload. Every supplied
key except id, the keys outside the MenuItem data model included, is
written onto the stored record with the payload value and persists in the
store; only the keys absent from the payload (plus id) keep their previous
values. -/
theorem c10_shallow_merge_extra_keys (st : StoreState) (n : Int) (body : JObj)
    (i : Nat) (it : JObj)
    (hf : findIndexJS (fun item => idMatches item (some n)) st.menuItems = some i)
    (hg : getAtJS st.menuItems i = some it)
    (hv : validateMenuItem body true = []) :
    ∃ it2,
      (putMenu st (some n) body).1 = PutResult.ok it2 ∧
      getAtJS (putMenu st (some n) body).2.menuItems i = some it2 ∧
      (∀ k w, k ≠ "id" → getProp body k = some w → getProp it2 k = some w) ∧
      (∀ k, k ≠ "id" → getProp body k = none → getProp it2 k = getProp it k) := by
  refine ⟨setKey (objMerge it body) "id" (parsedIdValue (some n)), ?_, ?_, ?_, ?_⟩
  · simp [putMenu, hf, hv, hg]
  · have hset : (putMenu st (some n) body).2.menuItems
        = setAtJS st.menuItems i
            (setKey (objMerge it body) "id" (parsedIdValue (some n))) := by
      simp [putMenu, hf, hv, hg]
    rw [hset]
    exact getAtJS_setAtJS hg
  · intro k w hk hbk
    rw [getProp_setKey_other _ _ _ _ hk, getProp_objMerge]
    cases hik : getProp it k with
    | some v => simp [hbk]
    | none => simp [hbk]
  · intro k hk hbk
    rw [getProp_setKey_other _ _ _ _ hk, getProp_objMerge]
    cases hik : getProp it k with
    | some v => simp [hbk]
    | none => simp [hbk]

/-- Witness of C10: an update of item 1 supplying only the unknown key
chef, which is stored verbatim while name keeps its previous value. -/
theorem c10_shallow_merge_extra_keys_witness :
    ∃ it2,
      (putMenu initialState (some 1) [("chef", JValue.str "Paula")]).1
          = PutResult.ok it2 ∧
      getAtJS (putMenu initialState (some 1)
          [("chef", JValue.str "Paula")]).2.menuItems 0 = some it2 ∧
      (∀ k w, k ≠ "id" →
        getProp [("chef", JValue.str "Paula")] k = some w → getProp it2 k = some w) ∧
      (∀ k, k ≠ "id" → getProp [("chef", JValue.str "Paula")] k = none →
        getProp it2 k = getProp (initialState.menuItems.headI) k) :=
  c10_shallow_merge_extra_keys initialState 1 [("chef", JValue.str "Paula")] 0
    (initialState.menuItems.headI) rfl rfl rfl
